import Mathlib

/-!
Verification of the color-contrast engine found in
src/plugins/accessibility/mcp-server/src/color-utils.ts and
src/plugins/accessibility/mcp-server/src/wcag-contrast.ts.

Numbers: the TypeScript source computes with IEEE doubles; this embedding
uses exact arithmetic instead, with rational numbers wherever the source
uses only field operations, comparisons, Math.round, Math.max, Math.min and
Math.abs, and with real numbers for the WCAG gamma curve Math.pow(x, 2.4)
(embedded as Real.rpow, hence the noncomputable luminance definitions).
JavaScript Math.round(x) is floor(x + 1/2), ties going up.

Strings are handled as lists of characters; JavaScript parseInt is modelled
on the short slices the parser feeds it: skip leading whitespace, take an
optional sign, then the longest run of digits of the base, NaN (Option.none)
when that run is empty. A JavaScript number that can be NaN is Option Rat.
-/

/-- One RGB color: the source interface has three number fields r, g, b,
documented as 0..255 but not enforced anywhere by the code. -/
structure RGB where
  r : ℚ
  g : ℚ
  b : ℚ
  deriving DecidableEq

/-- One HSL color: hue, saturation, lightness, documented as 0..360 and
0..100. -/
structure HSL where
  h : ℚ
  s : ℚ
  l : ℚ
  deriving DecidableEq

/-- JavaScript Math.round: the floor of x + 1/2, ties rounding up. -/
def jsRound (x : ℚ) : ℤ :=
  ⌊x + 1/2⌋

/-- JavaScript Math.round on a real argument, for the two-decimal display
rounding of the analyzer. -/
noncomputable def jsRoundR (x : ℝ) : ℤ :=
  ⌊x + 1/2⌋

/-- Value of one hexadecimal digit, in either case. -/
def hexDigitVal (c : Char) : Option ℕ :=
  if '0' ≤ c ∧ c ≤ '9' then some (c.toNat - 48)
  else if 'a' ≤ c ∧ c ≤ 'f' then some (c.toNat - 87)
  else if 'A' ≤ c ∧ c ≤ 'F' then some (c.toNat - 55)
  else none

/-- The value of the longest leading run of hexadecimal digits, none when
there is no such digit (parseInt would give NaN). -/
def hexRunVal (l : List Char) : Option ℕ :=
  let ds := l.takeWhile (fun c => (hexDigitVal c).isSome)
  if ds.isEmpty then none
  else some (ds.foldl (fun a c => 16 * a + ((hexDigitVal c).getD 0)) 0)

/-- JavaScript parseInt(s, 16) on the short strings the color parser builds:
skip leading whitespace, take an optional sign, then the longest run of hex
digits; NaN (none) when that run is empty. -/
def parseInt16 (l : List Char) : Option ℚ :=
  match l.dropWhile Char.isWhitespace with
  | '-' :: rest => (hexRunVal rest).map (fun n => -(n : ℚ))
  | '+' :: rest => (hexRunVal rest).map (fun n => (n : ℚ))
  | rest => (hexRunVal rest).map (fun n => (n : ℚ))

/-- Decimal value of a run of digit characters. -/
def natOfDigits (ds : List Char) : ℕ :=
  ds.foldl (fun a c => 10 * a + (c.toNat - 48)) 0

/-- The longest leading run of decimal digits and the rest of the input;
none when the run is empty. Models one mandatory capture group of digits of
the rgb regular expression. -/
def digitRun (l : List Char) : Option (ℕ × List Char) :=
  let ds := l.takeWhile Char.isDigit
  if ds.isEmpty then none else some (natOfDigits ds, l.drop ds.length)

/-- Consume one expected character. -/
def expectChar (c : Char) : List Char → Option (List Char)
  | [] => none
  | x :: rest => if x = c then some rest else none

/-- One attempt, at the head of the input, to match the source regular
expression for rgb colors (it is not anchored, so the caller tries every
position). The pattern: the letters rgb, an optional a, an opening
parenthesis, three runs of decimal digits separated by commas and optional
whitespace, an optional fourth comma-separated run of digits and dots (the
alpha value, parsed but discarded), and a closing parenthesis. Greedy runs
are exactly the regular expression semantics here, as each run is followed
by a character no run can contain. -/
def rgbMatchAt (l : List Char) : Option (ℕ × ℕ × ℕ) := do
  let l1 ← expectChar 'r' l
  let l2 ← expectChar 'g' l1
  let l3 ← expectChar 'b' l2
  let l4 := match expectChar 'a' l3 with
    | some rest => rest
    | none => l3
  let l5 ← expectChar '(' l4
  let (d1, l6) ← digitRun l5
  let l7 ← expectChar ',' l6
  let (d2, l8) ← digitRun (l7.dropWhile Char.isWhitespace)
  let l9 ← expectChar ',' l8
  let (d3, l10) ← digitRun (l9.dropWhile Char.isWhitespace)
  match l10 with
  | ')' :: _ => some (d1, d2, d3)
  | ',' :: rest =>
    let rest1 := rest.dropWhile Char.isWhitespace
    let ds := rest1.takeWhile (fun c => c.isDigit || c == '.')
    if ds.isEmpty then none
    else
      match rest1.drop ds.length with
      | ')' :: _ => some (d1, d2, d3)
      | _ => none
  | _ => none

/-- Search for the rgb pattern anywhere in the input, as the unanchored
String.match of the source does. -/
def rgbSearch : List Char → Option (ℕ × ℕ × ℕ)
  | [] => none
  | c :: rest =>
    match rgbMatchAt (c :: rest) with
    | some t => some t
    | none => rgbSearch rest

/-- color.trim().toLowerCase() of the source: drop whitespace at both ends
and lowercase every character. -/
def jsNormalize (s : String) : List Char :=
  (((s.data.dropWhile Char.isWhitespace).reverse.dropWhile
    Char.isWhitespace).reverse).map Char.toLower

/-- A parsed color exactly as the source returns it: each channel is a
JavaScript number, which parseInt can make NaN (none) on the hex path. -/
structure RawRGB where
  r : Option ℚ
  g : Option ℚ
  b : Option ℚ
  deriving DecidableEq

/-- The hex branch of parseColor: a 3-digit hex color duplicates each
character, a 6-digit hex color is read as three byte pairs, any other
length throws. The characters themselves are never validated, mirroring
the source, where parseInt turns an invalid pair into NaN. -/
def parseHex (color : String) (hex : List Char) : Except String RawRGB :=
  match hex with
  | [c1, c2, c3] =>
    .ok ⟨parseInt16 [c1, c1], parseInt16 [c2, c2], parseInt16 [c3, c3]⟩
  | [c1, c2, c3, c4, c5, c6] =>
    .ok ⟨parseInt16 [c1, c2], parseInt16 [c3, c4], parseInt16 [c5, c6]⟩
  | _ => .error ("Invalid hex color: " ++ color)

/-- parseColor from color-utils.ts: normalize, branch on a leading number
sign character, otherwise search the whole string for the rgb pattern. -/
def parseColor (color : String) : Except String RawRGB :=
  let n := jsNormalize color
  if n.head? = some '#' then parseHex color n.tail
  else
    match rgbSearch n with
    | some (d1, d2, d3) => .ok ⟨some (d1 : ℚ), some (d2 : ℚ), some (d3 : ℚ)⟩
    | none => .error ("Unsupported color format: " ++ color)

/-- A parse that succeeded with an ordinary number on every channel. -/
def parseColorRGB (s : String) : Option RGB :=
  match parseColor s with
  | .ok ⟨some r, some g, some b⟩ => some ⟨r, g, b⟩
  | _ => none

/-- Whether parseColor threw. -/
def isParseError : Except String RawRGB → Bool
  | .error _ => true
  | .ok _ => false

/-- The exact condition under which parseColor throws, read off the code:
a string whose normalized form starts with the number sign throws exactly
when the remaining length is neither 3 nor 6, and any other string throws
exactly when the rgb pattern occurs nowhere in it. -/
def parseRejects (l : List Char) : Bool :=
  if l.head? = some '#' then !(l.tail.length == 3 || l.tail.length == 6)
  else (rgbSearch l).isNone

/-- Two lowercase hexadecimal digits of one channel: toString(16) padded
with padStart(2, zero). Channels reaching this function are nonnegative
integers, embedded through the floor. -/
def hexByte (x : ℚ) : List Char :=
  let ds := Nat.toDigits 16 x.floor.toNat
  if ds.length < 2 then '0' :: ds else ds

/-- rgbToHex from color-utils.ts. -/
def rgbToHex (rgb : RGB) : String :=
  String.mk ('#' :: (hexByte rgb.r ++ hexByte rgb.g ++ hexByte rgb.b))

/-- rgbToHsl from color-utils.ts: the standard min/max channel algorithm,
returning hue, saturation and lightness rounded to integers. The source
switches on which channel equals the maximum, taking the first match in the
order r, g, b; the if chain below reproduces that order, and its final
branch is the b case (the switch can only fall through when the maximum is
none of the three channels, which cannot happen). -/
def rgbToHsl (rgb : RGB) : HSL :=
  let r := rgb.r / 255
  let g := rgb.g / 255
  let b := rgb.b / 255
  let maxC := max r (max g b)
  let minC := min r (min g b)
  let diff := maxC - minC
  let l := (maxC + minC) / 2
  let s :=
    if diff = 0 then 0
    else if l > 1/2 then diff / (2 - maxC - minC) else diff / (maxC + minC)
  let h :=
    if diff = 0 then 0
    else if maxC = r then ((g - b) / diff + (if g < b then 6 else 0)) / 6
    else if maxC = g then ((b - r) / diff + 2) / 6
    else ((r - g) / diff + 4) / 6
  ⟨(jsRound (h * 360) : ℚ), (jsRound (s * 100) : ℚ), (jsRound (l * 100) : ℚ)⟩

/-- The hue2rgb helper closure of hslToRgb: wrap the phase into the unit
interval (the source applies the two conditional shifts in sequence, and at
most one of them can fire), then pick p, q or an interpolation between them
by which sixth of the interval the phase fell into. -/
def hue2rgb (p q t : ℚ) : ℚ :=
  let t1 := if t < 0 then t + 1 else t
  let t2 := if t1 > 1 then t1 - 1 else t1
  if t2 < 1/6 then p + (q - p) * 6 * t2
  else if t2 < 1/2 then q
  else if t2 < 2/3 then p + (q - p) * (2/3 - t2) * 6
  else p

/-- hslToRgb from color-utils.ts: achromatic short circuit when saturation
is zero, otherwise the p/q helper values and three phase-shifted calls of
hue2rgb, each channel scaled to 0..255 and rounded. -/
def hslToRgb (hsl : HSL) : RGB :=
  let h := hsl.h / 360
  let s := hsl.s / 100
  let l := hsl.l / 100
  if s = 0 then
    ⟨(jsRound (l * 255) : ℚ), (jsRound (l * 255) : ℚ), (jsRound (l * 255) : ℚ)⟩
  else
    let q := if l < 1/2 then l * (1 + s) else l + s - l * s
    let p := 2 * l - q
    ⟨(jsRound (hue2rgb p q (h + 1/3) * 255) : ℚ),
     (jsRound (hue2rgb p q h * 255) : ℚ),
     (jsRound (hue2rgb p q (h - 1/3) * 255) : ℚ)⟩

/-- Gamma correction of one normalized channel, as getRelativeLuminance
applies it to each of the three channels: linear scaling below the 0.03928
breakpoint, otherwise the sRGB curve with exponent 2.4 (Real.rpow). -/
noncomputable def gammaChannel (c : ℚ) : ℝ :=
  if c ≤ 0.03928 then ((c / 12.92 : ℚ) : ℝ)
  else (((c + 0.055) / 1.055 : ℚ) : ℝ) ^ (2.4 : ℝ)

/-- getRelativeLuminance from color-utils.ts: WCAG 2.1 relative luminance,
the weighted sum of the three gamma-corrected channels. -/
noncomputable def getRelativeLuminance (rgb : RGB) : ℝ :=
  0.2126 * gammaChannel (rgb.r / 255) + 0.7152 * gammaChannel (rgb.g / 255)
    + 0.0722 * gammaChannel (rgb.b / 255)

/-- getContrastRatio from color-utils.ts: lighter luminance plus 0.05 over
darker luminance plus 0.05. -/
noncomputable def getContrastRatio (color1 color2 : RGB) : ℝ :=
  (max (getRelativeLuminance color1) (getRelativeLuminance color2) + 0.05)
    / (min (getRelativeLuminance color1) (getRelativeLuminance color2) + 0.05)

/-- adjustLightness from color-utils.ts: convert to HSL, clamp the requested
lightness into 0..100, convert back. Hue and saturation are carried over
unchanged. -/
def adjustLightness (rgb : RGB) (targetLightness : ℚ) : RGB :=
  let hsl := rgbToHsl rgb
  hslToRgb ⟨hsl.h, hsl.s, max 0 (min 100 targetLightness)⟩

/-- The color findAccessibleColor adjusts: the foreground when
adjustForeground is true, otherwise the background. -/
def subjectOf (foreground background : RGB) (adjustForeground : Bool) : RGB :=
  if adjustForeground then foreground else background

/-- The color findAccessibleColor holds fixed. -/
def fixedOf (foreground background : RGB) (adjustForeground : Bool) : RGB :=
  if adjustForeground then background else foreground

/-- The contrast ratio of a candidate against the fixed color, in the
argument order the source uses on each branch of adjustForeground. -/
noncomputable def ratioAgainstFixed (foreground background : RGB)
    (adjustForeground : Bool) (c : RGB) : ℝ :=
  if adjustForeground then getContrastRatio c (fixedOf foreground background adjustForeground)
  else getContrastRatio (fixedOf foreground background adjustForeground) c

open Classical in
/-- One iteration of the binary-search loop of findAccessibleColor: probe
the midpoint lightness; when it meets the target, move the boundary on the
side away from the original lightness, otherwise move away from the fixed
color by comparing the raw luminances of the subject and fixed colors. -/
noncomputable def searchStep (colorToAdjust fixedColor : RGB) (targetRatio : ℝ)
    (adjustForeground : Bool) (minL maxL : ℚ) : ℚ × ℚ :=
  let midL := (minL + maxL) / 2
  let adjusted := adjustLightness colorToAdjust midL
  let ratio :=
    if adjustForeground then getContrastRatio adjusted fixedColor
    else getContrastRatio fixedColor adjusted
  if targetRatio ≤ ratio then
    if midL < (rgbToHsl colorToAdjust).l then (midL, maxL) else (minL, midL)
  else
    if getRelativeLuminance fixedColor < getRelativeLuminance colorToAdjust then (midL, maxL)
    else (minL, midL)

open Classical in
/-- The while loop of findAccessibleColor as a fuel recursion: the fuel is
the remaining iteration budget (20 at the top call, the source maxIterations
minus iterations), and the loop also stops when the interval has width at
most 1. -/
noncomputable def searchGo (colorToAdjust fixedColor : RGB) (targetRatio : ℝ)
    (adjustForeground : Bool) : ℕ → ℚ → ℚ → ℚ × ℚ
  | 0, minL, maxL => (minL, maxL)
  | n + 1, minL, maxL =>
    if 1 < maxL - minL then
      let st := searchStep colorToAdjust fixedColor targetRatio adjustForeground minL maxL
      searchGo colorToAdjust fixedColor targetRatio adjustForeground n st.1 st.2
    else (minL, maxL)

open Classical in
/-- How many iterations the loop of findAccessibleColor performs from a
given state, with the same recursion structure as searchGo. -/
noncomputable def searchCount (colorToAdjust fixedColor : RGB) (targetRatio : ℝ)
    (adjustForeground : Bool) : ℕ → ℚ → ℚ → ℕ
  | 0, _, _ => 0
  | n + 1, minL, maxL =>
    if 1 < maxL - minL then
      let st := searchStep colorToAdjust fixedColor targetRatio adjustForeground minL maxL
      1 + searchCount colorToAdjust fixedColor targetRatio adjustForeground n st.1 st.2
    else 0

/-- The iteration count as a function of the interval width alone: each
iteration of the loop replaces one endpoint by the midpoint, so only the
width matters to the stopping condition. -/
def countW : ℕ → ℚ → ℕ
  | 0, _ => 0
  | n + 1, w => if 1 < w then 1 + countW n (w / 2) else 0

/-- The loop state after findAccessibleColor has run its binary search:
minL and maxL, started at 0 and 100 with an iteration budget of 20. -/
noncomputable def searchBounds (foreground background : RGB) (targetRatio : ℝ)
    (adjustForeground : Bool) : ℚ × ℚ :=
  searchGo (subjectOf foreground background adjustForeground)
    (fixedOf foreground background adjustForeground) targetRatio adjustForeground 20 0 100

/-- The post-loop light candidate: the subject re-lightened to maxL. -/
noncomputable def boundaryLight (foreground background : RGB) (targetRatio : ℝ)
    (adjustForeground : Bool) : RGB :=
  adjustLightness (subjectOf foreground background adjustForeground)
    (searchBounds foreground background targetRatio adjustForeground).2

/-- The post-loop dark candidate: the subject re-lightened to minL. -/
noncomputable def boundaryDark (foreground background : RGB) (targetRatio : ℝ)
    (adjustForeground : Bool) : RGB :=
  adjustLightness (subjectOf foreground background adjustForeground)
    (searchBounds foreground background targetRatio adjustForeground).1

open Classical in
/-- findAccessibleColor from color-utils.ts, lines 240 to 266: test both
post-loop boundary candidates; when both meet the target return the one
whose lightness is closer to the original (the light one only when strictly
closer), when one meets it return that one, otherwise null. -/
noncomputable def findAccessibleColor (foreground background : RGB)
    (targetRatio : ℝ) (adjustForeground : Bool) : Option RGB :=
  if targetRatio ≤ ratioAgainstFixed foreground background adjustForeground
      (boundaryLight foreground background targetRatio adjustForeground)
    ∧ targetRatio ≤ ratioAgainstFixed foreground background adjustForeground
      (boundaryDark foreground background targetRatio adjustForeground) then
    if |(searchBounds foreground background targetRatio adjustForeground).2
        - (rgbToHsl (subjectOf foreground background adjustForeground)).l|
      < |(searchBounds foreground background targetRatio adjustForeground).1
        - (rgbToHsl (subjectOf foreground background adjustForeground)).l| then
      some (boundaryLight foreground background targetRatio adjustForeground)
    else some (boundaryDark foreground background targetRatio adjustForeground)
  else if targetRatio ≤ ratioAgainstFixed foreground background adjustForeground
      (boundaryLight foreground background targetRatio adjustForeground) then
    some (boundaryLight foreground background targetRatio adjustForeground)
  else if targetRatio ≤ ratioAgainstFixed foreground background adjustForeground
      (boundaryDark foreground background targetRatio adjustForeground) then
    some (boundaryDark foreground background targetRatio adjustForeground)
  else none

/-- The channels of a color are within the documented 0..255 range. -/
def ValidRGB (c : RGB) : Prop :=
  0 ≤ c.r ∧ c.r ≤ 255 ∧ 0 ≤ c.g ∧ c.g ≤ 255 ∧ 0 ≤ c.b ∧ c.b ≤ 255

/-- The fields of an HSL value are within the documented ranges. -/
def ValidHSL (x : HSL) : Prop :=
  0 ≤ x.h ∧ x.h ≤ 360 ∧ 0 ≤ x.s ∧ x.s ≤ 100 ∧ 0 ≤ x.l ∧ x.l ≤ 100

instance (c : RGB) : Decidable (ValidRGB c) := by
  unfold ValidRGB
  infer_instance

instance (x : HSL) : Decidable (ValidHSL x) := by
  unfold ValidHSL
  infer_instance

instance : DecidableEq (Except String RawRGB) := fun a b =>
  match a, b with
  | .ok x, .ok y => decidable_of_iff (x = y) (by simp)
  | .error x, .error y => decidable_of_iff (x = y) (by simp)
  | .ok _, .error _ => isFalse (by simp)
  | .error _, .ok _ => isFalse (by simp)

/-- The content categories of wcag-contrast.ts. -/
inductive ContentType
  | normalText
  | largeText
  | uiComponent
  deriving DecidableEq

/-- The WCAG conformance levels of wcag-contrast.ts. -/
inductive WCAGLevel
  | AA
  | AAA
  deriving DecidableEq

/-- The pair of minimum ratios a content category carries in the
requirements table. -/
structure RequirementPair where
  AA : ℚ
  AAA : ℚ
  deriving DecidableEq

/-- getContrastRequirements from wcag-contrast.ts: the static threshold
table. The source notes that AAA has no stricter requirement for UI
components. -/
def getContrastRequirements : ContentType → RequirementPair
  | .normalText => ⟨4.5, 7.0⟩
  | .largeText => ⟨3.0, 4.5⟩
  | .uiComponent => ⟨3.0, 3.0⟩

/-- Selecting one level out of a requirements table row, as the source
indexes requirements with the level. -/
def RequirementPair.atLevel (p : RequirementPair) : WCAGLevel → ℚ
  | .AA => p.AA
  | .AAA => p.AAA

/-- getWCAGGuideline from wcag-contrast.ts. -/
def getWCAGGuideline : ContentType → String
  | .normalText => "1.4.3 Contrast (Minimum)"
  | .largeText => "1.4.3 Contrast (Minimum)"
  | .uiComponent => "1.4.11 Non-text Contrast"

/-- The ContrastAnalysis record of wcag-contrast.ts with its two nested
objects (passes, requirement) flattened into fields. -/
structure ContrastAnalysis where
  foreground : String
  background : String
  ratio : ℝ
  passesNormalText : Bool
  passesLargeText : Bool
  passesUiComponent : Bool
  reqLevel : WCAGLevel
  reqContentType : ContentType
  reqMinimumRatio : ℚ
  reqGuideline : String
  meetsRequirement : Bool

open Classical in
/-- analyzeColorPair from wcag-contrast.ts, after its two parseColor calls
(the parse step is factored out here; the claims about string inputs carry
a parse hypothesis). The three pass flags compare the unrounded ratio to
the AA thresholds of the table, the displayed ratio is rounded to two
decimals, and meetsRequirement compares the unrounded ratio to the minimum
of the requested category and level. -/
noncomputable def analyzeColorPair (foregroundRgb backgroundRgb : RGB)
    (contentType : ContentType) (level : WCAGLevel) : ContrastAnalysis :=
  { foreground := rgbToHex foregroundRgb
    background := rgbToHex backgroundRgb
    ratio := (jsRoundR (getContrastRatio foregroundRgb backgroundRgb * 100) : ℝ) / 100
    passesNormalText :=
      decide (((getContrastRequirements .normalText).AA : ℝ)
        ≤ getContrastRatio foregroundRgb backgroundRgb)
    passesLargeText :=
      decide (((getContrastRequirements .largeText).AA : ℝ)
        ≤ getContrastRatio foregroundRgb backgroundRgb)
    passesUiComponent :=
      decide (((getContrastRequirements .uiComponent).AA : ℝ)
        ≤ getContrastRatio foregroundRgb backgroundRgb)
    reqLevel := level
    reqContentType := contentType
    reqMinimumRatio := (getContrastRequirements contentType).atLevel level
    reqGuideline := getWCAGGuideline contentType
    meetsRequirement :=
      decide ((((getContrastRequirements contentType).atLevel level : ℚ) : ℝ)
        ≤ getContrastRatio foregroundRgb backgroundRgb) }

/-- Which side a suggestion adjusted. -/
inductive AdjustedSide
  | foreground
  | background
  deriving DecidableEq

/-- The ColorSuggestion record of wcag-contrast.ts. -/
structure ColorSuggestion where
  color : String
  ratio : ℝ
  adjustedProperty : AdjustedSide

/-- The preserve option of suggestAccessibleColors. -/
inductive Preserve
  | foreground
  | background
  | both
  deriving DecidableEq

open Classical in
/-- Insert one suggestion into a list already sorted by distance of the
(rounded) suggestion ratio from the target ratio, after every element at
equal or smaller distance. -/
noncomputable def insertSuggestion (targetRatio : ℝ) (s : ColorSuggestion) :
    List ColorSuggestion → List ColorSuggestion
  | [] => [s]
  | x :: rest =>
    if |x.ratio - targetRatio| ≤ |s.ratio - targetRatio| then
      x :: insertSuggestion targetRatio s rest
    else s :: x :: rest

/-- The ascending stable sort-by-distance of suggestAccessibleColors
(Array.sort with the comparator aDiff minus bDiff; on the at most two
elements the source produces, any stable ascending sort agrees). -/
noncomputable def sortSuggestions (targetRatio : ℝ)
    (l : List ColorSuggestion) : List ColorSuggestion :=
  l.foldl (fun acc s => insertSuggestion targetRatio s acc) []

open Classical in
/-- The foreground-adjusting branch of suggestAccessibleColors: at most one
suggestion, produced when the preserve option is background or both and the
search succeeds. -/
noncomputable def fgSuggestionList (foregroundRgb backgroundRgb : RGB)
    (targetRatio : ℝ) (preserveProperty : Preserve) : List ColorSuggestion :=
  if preserveProperty = .background ∨ preserveProperty = .both then
    match findAccessibleColor foregroundRgb backgroundRgb targetRatio true with
    | some adjustedFg =>
      [⟨rgbToHex adjustedFg,
        (jsRoundR (getContrastRatio adjustedFg backgroundRgb * 100) : ℝ) / 100,
        .foreground⟩]
    | none => []
  else []

open Classical in
/-- The background-adjusting branch of suggestAccessibleColors. -/
noncomputable def bgSuggestionList (foregroundRgb backgroundRgb : RGB)
    (targetRatio : ℝ) (preserveProperty : Preserve) : List ColorSuggestion :=
  if preserveProperty = .foreground ∨ preserveProperty = .both then
    match findAccessibleColor foregroundRgb backgroundRgb targetRatio false with
    | some adjustedBg =>
      [⟨rgbToHex adjustedBg,
        (jsRoundR (getContrastRatio foregroundRgb adjustedBg * 100) : ℝ) / 100,
        .background⟩]
    | none => []
  else []

/-- suggestAccessibleColors from wcag-contrast.ts, after its parseColor
calls: the up to two successful search results, sorted ascending by the
distance of their rounded ratio from the target. -/
noncomputable def suggestAccessibleColors (foregroundRgb backgroundRgb : RGB)
    (targetRatio : ℝ) (preserveProperty : Preserve) : List ColorSuggestion :=
  sortSuggestions targetRatio
    (fgSuggestionList foregroundRgb backgroundRgb targetRatio preserveProperty
      ++ bgSuggestionList foregroundRgb backgroundRgb targetRatio preserveProperty)

/-- C7: getContrastRatio is symmetric in its two color arguments, because
the source orders the two luminances with max and min before dividing. -/
theorem getContrastRatio_comm (a b : RGB) :
    getContrastRatio a b = getContrastRatio b a := by
  unfold getContrastRatio
  rw [max_comm, min_comm]

/-- C4: the claim fails in the code. parseColor on rgb(300, 0, 0) matches
the rgb pattern, and the out-of-range channel value 300 is returned
silently, neither rejected nor clamped to 255. -/
theorem parseColor_out_of_range :
    parseColor ("rgb(300, 0, 0)") = Except.ok ⟨some 300, some 0, some 0⟩
      ∧ ¬ (300 : ℚ) ≤ 255 := by
  decide

/-- Helper: computing one application of Math.round from two bounds. -/
theorem jsRound_eq (x : ℚ) (n : ℤ) (h1 : (n : ℚ) ≤ x + 1/2)
    (h2 : x + 1/2 < n + 1) : jsRound x = n := by
  unfold jsRound
  exact Int.floor_eq_iff.mpr ⟨by exact_mod_cast h1, by exact_mod_cast h2⟩

/-- C3: the claim fails in the code. The round trip through rgbToHsl and
hslToRgb maps the color (2, 228, 230) to (2, 223, 227): the green channel
moves by 5, far beyond the one unit the specification allows, because the
three HSL components are rounded to integers before converting back. -/
theorem hslRoundTrip_deviates :
    hslToRgb (rgbToHsl ⟨2, 228, 230⟩) = ⟨2, 223, 227⟩
      ∧ ¬ |(hslToRgb (rgbToHsl ⟨2, 228, 230⟩)).g - 228| ≤ 1 := by
  have h1 : rgbToHsl ⟨2, 228, 230⟩ = ⟨181, 98, 45⟩ := by
    simp only [rgbToHsl]
    norm_num [max_def, min_def, HSL.mk.injEq]
    refine ⟨?_, ?_, ?_⟩ <;> exact_mod_cast jsRound_eq _ _ (by norm_num) (by norm_num)
  have h2 : hslToRgb ⟨181, 98, 45⟩ = ⟨2, 223, 227⟩ := by
    simp only [hslToRgb, hue2rgb]
    norm_num [RGB.mk.injEq]
    refine ⟨?_, ?_, ?_⟩ <;> exact_mod_cast jsRound_eq _ _ (by norm_num) (by norm_num)
  rw [h1, h2]
  refine ⟨rfl, ?_⟩
  rw [show ((⟨2, 223, 227⟩ : RGB)).g - 228 = -5 by norm_num, abs_neg]
  rw [abs_of_nonneg (by norm_num : (0:ℚ) ≤ 5)]
  norm_num

/-- C5 counterexample: a number-sign string of hex length 3 whose characters
are not hexadecimal digits is not rejected: parseColor returns a color all
of whose channels are NaN, while the claim requires a parse error for every
string matching none of the supported grammars. -/
theorem parseColor_accepts_bad_hex_digits :
    parseColor ("#zzz") = Except.ok ⟨none, none, none⟩ := by
  decide

/-- Helper: the hex branch throws exactly on lengths other than 3 and 6. -/
theorem parseHex_isError (color : String) (t : List Char) :
    isParseError (parseHex color t) = !(t.length == 3 || t.length == 6) := by
  rcases t with _ | ⟨a, _ | ⟨b, _ | ⟨c, _ | ⟨d, _ | ⟨e, _ | ⟨f, _ | ⟨g, t⟩⟩⟩⟩⟩⟩⟩ <;>
    simp [parseHex, isParseError]

/-- C5 as amended: parseColor throws exactly when the trimmed, lowercased
input either starts with a number sign followed by a hex part whose length
is neither 3 nor 6 (the hex characters themselves are never validated), or
does not start with the number sign and contains no substring matched by
the rgb pattern (the pattern is searched anywhere in the string, not
anchored to the whole string); notacolor raises a parse error and the
string fff after a number sign parses to (255, 255, 255). -/
theorem parseColor_error_characterization (s : String) :
    isParseError (parseColor s) = parseRejects (jsNormalize s)
      ∧ isParseError (parseColor ("notacolor")) = true
      ∧ parseColor ("#fff") = Except.ok ⟨some 255, some 255, some 255⟩ := by
  refine ⟨?_, by decide, by decide⟩
  unfold parseColor parseRejects
  by_cases h : (jsNormalize s).head? = some '#'
  · simp only [h, if_pos, parseHex_isError]
  · simp only [h, if_neg, Bool.false_eq_true, not_false_eq_true]
    rcases hr : rgbSearch (jsNormalize s) with _ | ⟨d1, d2, d3⟩ <;>
      simp [isParseError, hr]

/-- C1: for parseable inputs, analyzeColorPair reports the ratio rounded to
two decimals, but evaluates the three pass flags against the AA thresholds
4.5, 3, 3 on the unrounded ratio whatever category and level were asked
for, and meetsRequirement against the minimum of the requested category and
level from the table normal-text (4.5, 7), large-text (3, 4.5),
ui-component (3, 3). -/
theorem analyzeColorPair_spec (sfg sbg : String) (F B : RGB)
    (ct : ContentType) (lvl : WCAGLevel)
    (hf : parseColorRGB sfg = some F) (hb : parseColorRGB sbg = some B) :
    (analyzeColorPair F B ct lvl).ratio
        = (jsRoundR (getContrastRatio F B * 100) : ℝ) / 100
      ∧ ((analyzeColorPair F B ct lvl).passesNormalText = true
          ↔ (4.5 : ℝ) ≤ getContrastRatio F B)
      ∧ ((analyzeColorPair F B ct lvl).passesLargeText = true
          ↔ (3 : ℝ) ≤ getContrastRatio F B)
      ∧ ((analyzeColorPair F B ct lvl).passesUiComponent = true
          ↔ (3 : ℝ) ≤ getContrastRatio F B)
      ∧ ((analyzeColorPair F B ct lvl).meetsRequirement = true
          ↔ (((getContrastRequirements ct).atLevel lvl : ℚ) : ℝ)
            ≤ getContrastRatio F B)
      ∧ getContrastRequirements .normalText = ⟨4.5, 7⟩
      ∧ getContrastRequirements .largeText = ⟨3, 4.5⟩
      ∧ getContrastRequirements .uiComponent = ⟨3, 3⟩ := by
  refine ⟨rfl, ?_, ?_, ?_, ?_, ?_, ?_, ?_⟩ <;>
    simp only [analyzeColorPair, getContrastRequirements, decide_eq_true_eq,
      RequirementPair.mk.injEq] <;>
    norm_num

/-- Witness for C1 at the boundary example of the specification. -/
theorem analyzeColorPair_spec_witness :
    parseColorRGB ("#767676") = some ⟨118, 118, 118⟩
      ∧ getContrastRequirements .normalText = ⟨4.5, 7⟩ :=
  ⟨by decide,
    (analyzeColorPair_spec ("#767676") ("#ffffff") ⟨118, 118, 118⟩
      ⟨255, 255, 255⟩ .normalText .AA (by decide) (by decide)).2.2.2.2.2.1⟩

/-- Helper: every branch of one search iteration halves the interval,
because one endpoint moves to the midpoint. -/
theorem searchStep_width (ca fc : RGB) (t : ℝ) (adj : Bool) (mn mx : ℚ) :
    (searchStep ca fc t adj mn mx).2 - (searchStep ca fc t adj mn mx).1
      = (mx - mn) / 2 := by
  simp only [searchStep]
  split_ifs <;> simp <;> ring

/-- Helper: the loop body count only depends on the interval width. -/
theorem searchCount_eq_countW (ca fc : RGB) (t : ℝ) (adj : Bool) :
    ∀ (n : ℕ) (mn mx : ℚ),
      searchCount ca fc t adj n mn mx = countW n (mx - mn) := by
  intro n
  induction n with
  | zero => intro mn mx; rfl
  | succ k ih =>
    intro mn mx
    unfold searchCount countW
    split_ifs with h
    · simp only []
      rw [ih, searchStep_width]
    · rfl

/-- Helper: the count never exceeds the remaining iteration budget. -/
theorem countW_le : ∀ (n : ℕ) (w : ℚ), countW n w ≤ n := by
  intro n
  induction n with
  | zero => intro w; exact Nat.le_refl 0
  | succ k ih =>
    intro w
    unfold countW
    split_ifs
    · have := ih (w / 2); omega
    · omega

/-- Helper: the loop stops at once on an interval of width at most 1. -/
theorem countW_of_le_one (n : ℕ) (w : ℚ) (h : w ≤ 1) : countW n w = 0 := by
  cases n with
  | zero => rfl
  | succ k =>
    unfold countW
    rw [if_neg (not_lt.mpr h)]

/-- Helper: one unfolding of the count on an interval still wider than 1. -/
theorem countW_succ_pos (n : ℕ) (w w2 : ℚ) (h : 1 < w) (h2 : w / 2 = w2) :
    countW (n + 1) w = 1 + countW n w2 := by
  change (if 1 < w then 1 + countW n (w / 2) else 0) = 1 + countW n w2
  rw [if_pos h, h2]

/-- C10: findAccessibleColor always terminates. Its binary-search loop,
entered with the interval (0, 100) and an iteration budget of 20, performs
exactly 7 iterations (the halving widths 100, 50, 25, 12.5, 6.25, 3.125,
1.5625 each exceed 1 and the next one does not), so the 20-iteration cap is
respected; from any state the count is bounded by the remaining budget, and
the loop stops at once when the interval width is at most 1. -/
theorem findAccessibleColor_loop_bound (fg bg : RGB) (t : ℝ) (adj : Bool) :
    searchCount (subjectOf fg bg adj) (fixedOf fg bg adj) t adj 20 0 100 = 7
      ∧ (∀ (n : ℕ) (mn mx : ℚ),
          searchCount (subjectOf fg bg adj) (fixedOf fg bg adj) t adj n mn mx ≤ n)
      ∧ (∀ (n : ℕ) (mn mx : ℚ), mx - mn ≤ 1 →
          searchCount (subjectOf fg bg adj) (fixedOf fg bg adj) t adj n mn mx = 0) := by
  refine ⟨?_, ?_, ?_⟩
  · rw [searchCount_eq_countW, show ((100 : ℚ) - 0) = 100 by norm_num]
    rw [show countW 20 100 = 1 + countW 19 50 from
        countW_succ_pos 19 100 50 (by norm_num) (by norm_num)]
    rw [show countW 19 50 = 1 + countW 18 25 from
        countW_succ_pos 18 50 25 (by norm_num) (by norm_num)]
    rw [show countW 18 25 = 1 + countW 17 (25/2) from
        countW_succ_pos 17 25 (25/2) (by norm_num) (by norm_num)]
    rw [show countW 17 (25/2) = 1 + countW 16 (25/4) from
        countW_succ_pos 16 (25/2) (25/4) (by norm_num) (by norm_num)]
    rw [show countW 16 (25/4) = 1 + countW 15 (25/8) from
        countW_succ_pos 15 (25/4) (25/8) (by norm_num) (by norm_num)]
    rw [show countW 15 (25/8) = 1 + countW 14 (25/16) from
        countW_succ_pos 14 (25/8) (25/16) (by norm_num) (by norm_num)]
    rw [show countW 14 (25/16) = 1 + countW 13 (25/32) from
        countW_succ_pos 13 (25/16) (25/32) (by norm_num) (by norm_num)]
    rw [countW_of_le_one 13 (25/32) (by norm_num)]
  · intro n mn mx
    rw [searchCount_eq_countW]
    exact countW_le n _
  · intro n mn mx h
    rw [searchCount_eq_countW]
    exact countW_of_le_one n _ (by linarith)

/-- Helper: the gamma-corrected channel is nonnegative. -/
theorem gammaChannel_nonneg (c : ℚ) (h0 : 0 ≤ c) : 0 ≤ gammaChannel c := by
  unfold gammaChannel
  split_ifs with h
  · have : (0 : ℚ) ≤ c / 12.92 := by positivity
    exact_mod_cast this
  · refine Real.rpow_nonneg ?_ _
    have : (0 : ℚ) ≤ (c + 0.055) / 1.055 := by positivity
    exact_mod_cast this

/-- Helper: the gamma-corrected channel of a normalized value is at most 1. -/
theorem gammaChannel_le_one (c : ℚ) (h0 : 0 ≤ c) (h1 : c ≤ 1) :
    gammaChannel c ≤ 1 := by
  unfold gammaChannel
  split_ifs with h
  · have : c / 12.92 ≤ 1 := by
      rw [div_le_one (by norm_num)]
      linarith
    exact_mod_cast this
  · refine Real.rpow_le_one ?_ ?_ (by norm_num)
    · have : (0 : ℚ) ≤ (c + 0.055) / 1.055 := by positivity
      exact_mod_cast this
    · have : (c + 0.055) / 1.055 ≤ 1 := by
        rw [div_le_one (by norm_num)]
        linarith
      exact_mod_cast this

/-- Helper: relative luminance of an in-range color lies in the unit
interval, since the three WCAG weights sum to exactly 1. -/
theorem getRelativeLuminance_mem (c : RGB) (h : ValidRGB c) :
    0 ≤ getRelativeLuminance c ∧ getRelativeLuminance c ≤ 1 := by
  obtain ⟨h1, h2, h3, h4, h5, h6⟩ := h
  have hr0 : (0 : ℚ) ≤ c.r / 255 := by positivity
  have hg0 : (0 : ℚ) ≤ c.g / 255 := by positivity
  have hb0 : (0 : ℚ) ≤ c.b / 255 := by positivity
  have hr1 : c.r / 255 ≤ 1 := by rw [div_le_one (by norm_num)]; linarith
  have hg1 : c.g / 255 ≤ 1 := by rw [div_le_one (by norm_num)]; linarith
  have hb1 : c.b / 255 ≤ 1 := by rw [div_le_one (by norm_num)]; linarith
  have a0 := gammaChannel_nonneg _ hr0
  have b0 := gammaChannel_nonneg _ hg0
  have c0 := gammaChannel_nonneg _ hb0
  have a1 := gammaChannel_le_one _ hr0 hr1
  have b1 := gammaChannel_le_one _ hg0 hg1
  have c1 := gammaChannel_le_one _ hb0 hb1
  unfold getRelativeLuminance
  constructor <;> nlinarith

/-- Helper: the contrast ratio of two in-range colors lies in the interval
from 1 to 21. -/
theorem getContrastRatio_mem (a b : RGB) (ha : ValidRGB a) (hb : ValidRGB b) :
    1 ≤ getContrastRatio a b ∧ getContrastRatio a b ≤ 21 := by
  obtain ⟨la0, la1⟩ := getRelativeLuminance_mem a ha
  obtain ⟨lb0, lb1⟩ := getRelativeLuminance_mem b hb
  unfold getContrastRatio
  have hm0 : 0 ≤ min (getRelativeLuminance a) (getRelativeLuminance b) :=
    le_min la0 lb0
  have hM1 : max (getRelativeLuminance a) (getRelativeLuminance b) ≤ 1 :=
    max_le la1 lb1
  have hmM : min (getRelativeLuminance a) (getRelativeLuminance b)
      ≤ max (getRelativeLuminance a) (getRelativeLuminance b) := min_le_max
  have hden : (0 : ℝ) < min (getRelativeLuminance a) (getRelativeLuminance b) + 0.05 := by
    linarith
  constructor
  · rw [le_div_iff₀ hden]
    linarith
  · rw [div_le_iff₀ hden]
    linarith

/-- C6: relative luminance of every in-range color lies in the unit
interval, and the contrast ratio of every in-range pair is at least 1 and
at most 21. -/
theorem luminance_contrast_range (a b : RGB) (ha : ValidRGB a) (hb : ValidRGB b) :
    (0 ≤ getRelativeLuminance a ∧ getRelativeLuminance a ≤ 1)
      ∧ 1 ≤ getContrastRatio a b ∧ getContrastRatio a b ≤ 21 :=
  ⟨getRelativeLuminance_mem a ha, getContrastRatio_mem a b ha hb⟩

/-- Witness for C6 at black on white. -/
theorem luminance_contrast_range_witness :
    ValidRGB ⟨0, 0, 0⟩ ∧ ValidRGB ⟨255, 255, 255⟩
      ∧ 1 ≤ getContrastRatio ⟨0, 0, 0⟩ ⟨255, 255, 255⟩ :=
  ⟨by decide, by decide,
    (luminance_contrast_range ⟨0, 0, 0⟩ ⟨255, 255, 255⟩ (by decide) (by decide)).2.1⟩


/-- Helper: Math.round of a value in 0..n stays in 0..n. -/
theorem jsRound_mem (x : ℚ) (n : ℕ) (h0 : 0 ≤ x) (h1 : x ≤ n) :
    0 ≤ ((jsRound x : ℤ) : ℚ) ∧ ((jsRound x : ℤ) : ℚ) ≤ n := by
  unfold jsRound
  constructor
  · have : (0 : ℤ) ≤ ⌊x + 1/2⌋ := by
      apply Int.le_floor.mpr
      push_cast
      linarith
    exact_mod_cast this
  · have : ⌊x + 1/2⌋ ≤ (n : ℤ) := by
      apply Int.floor_le_iff.mpr
      push_cast
      linarith
    exact_mod_cast this

/-- Helper: hue2rgb stays between p and q, hence in the unit interval,
for any phase within one wrap of the unit interval. -/
theorem hue2rgb_mem (p q t : ℚ) (hp : 0 ≤ p) (hpq : p ≤ q) (hq : q ≤ 1)
    (ht0 : -1 ≤ t) (ht1 : t ≤ 2) : 0 ≤ hue2rgb p q t ∧ hue2rgb p q t ≤ 1 := by
  simp only [hue2rgb]
  split_ifs <;> constructor <;> nlinarith

/-- Helper: a normalized channel scaled to 255 and rounded is a valid
channel value. -/
theorem channelRound_mem (v : ℚ) (h0 : 0 ≤ v) (h1 : v ≤ 1) :
    0 ≤ ((jsRound (v * 255) : ℤ) : ℚ) ∧ ((jsRound (v * 255) : ℤ) : ℚ) ≤ 255 := by
  have := jsRound_mem (v * 255) 255 (by positivity) (by push_cast; nlinarith)
  exact_mod_cast this

/-- Helper: hslToRgb maps every in-range HSL value to an in-range color. -/
theorem hslToRgb_valid (x : HSL) (h : ValidHSL x) : ValidRGB (hslToRgb x) := by
  obtain ⟨hh0, hh1, hs0, hs1, hl0, hl1⟩ := h
  have hH0 : 0 ≤ x.h / 360 := by positivity
  have hH1 : x.h / 360 ≤ 1 := by rw [div_le_one (by norm_num)]; linarith
  have hS0 : 0 ≤ x.s / 100 := by positivity
  have hS1 : x.s / 100 ≤ 1 := by rw [div_le_one (by norm_num)]; linarith
  have hL0 : 0 ≤ x.l / 100 := by positivity
  have hL1 : x.l / 100 ≤ 1 := by rw [div_le_one (by norm_num)]; linarith
  simp only [hslToRgb]
  split_ifs with hs hl
  · have m := channelRound_mem (x.l / 100) hL0 hL1
    exact ⟨m.1, m.2, m.1, m.2, m.1, m.2⟩
  · have hp0 : 0 ≤ 2 * (x.l / 100) - x.l / 100 * (1 + x.s / 100) := by nlinarith
    have hpq : 2 * (x.l / 100) - x.l / 100 * (1 + x.s / 100)
        ≤ x.l / 100 * (1 + x.s / 100) := by nlinarith
    have hq1 : x.l / 100 * (1 + x.s / 100) ≤ 1 := by nlinarith
    have m1 := hue2rgb_mem _ _ (x.h / 360 + 1/3) hp0 hpq hq1 (by linarith) (by linarith)
    have m2 := hue2rgb_mem _ _ (x.h / 360) hp0 hpq hq1 (by linarith) (by linarith)
    have m3 := hue2rgb_mem _ _ (x.h / 360 - 1/3) hp0 hpq hq1 (by linarith) (by linarith)
    have c1 := channelRound_mem _ m1.1 m1.2
    have c2 := channelRound_mem _ m2.1 m2.2
    have c3 := channelRound_mem _ m3.1 m3.2
    exact ⟨c1.1, c1.2, c2.1, c2.2, c3.1, c3.2⟩
  · have hp0 : 0 ≤ 2 * (x.l / 100)
        - (x.l / 100 + x.s / 100 - x.l / 100 * (x.s / 100)) := by nlinarith
    have hpq : 2 * (x.l / 100) - (x.l / 100 + x.s / 100 - x.l / 100 * (x.s / 100))
        ≤ x.l / 100 + x.s / 100 - x.l / 100 * (x.s / 100) := by nlinarith
    have hq1 : x.l / 100 + x.s / 100 - x.l / 100 * (x.s / 100) ≤ 1 := by nlinarith
    have m1 := hue2rgb_mem _ _ (x.h / 360 + 1/3) hp0 hpq hq1 (by linarith) (by linarith)
    have m2 := hue2rgb_mem _ _ (x.h / 360) hp0 hpq hq1 (by linarith) (by linarith)
    have m3 := hue2rgb_mem _ _ (x.h / 360 - 1/3) hp0 hpq hq1 (by linarith) (by linarith)
    have c1 := channelRound_mem _ m1.1 m1.2
    have c2 := channelRound_mem _ m2.1 m2.2
    have c3 := channelRound_mem _ m3.1 m3.2
    exact ⟨c1.1, c1.2, c2.1, c2.2, c3.1, c3.2⟩


/-- Helper: a normalized hue scaled to 360 and rounded stays in 0..360. -/
theorem jsRound_mem360 (x : ℚ) (h0 : 0 ≤ x) (h1 : x ≤ 1) :
    0 ≤ ((jsRound (x * 360) : ℤ) : ℚ) ∧ ((jsRound (x * 360) : ℤ) : ℚ) ≤ 360 := by
  have := jsRound_mem (x * 360) 360 (by positivity) (by push_cast; nlinarith)
  exact_mod_cast this

/-- Helper: a normalized percentage scaled to 100 and rounded stays in
0..100. -/
theorem jsRound_mem100 (x : ℚ) (h0 : 0 ≤ x) (h1 : x ≤ 1) :
    0 ≤ ((jsRound (x * 100) : ℤ) : ℚ) ∧ ((jsRound (x * 100) : ℤ) : ℚ) ≤ 100 := by
  have := jsRound_mem (x * 100) 100 (by positivity) (by push_cast; nlinarith)
  exact_mod_cast this

/-- Helper: rgbToHsl maps every in-range color to an in-range HSL value. -/
theorem rgbToHsl_valid (c : RGB) (h : ValidRGB c) : ValidHSL (rgbToHsl c) := by
  obtain ⟨h1, h2, h3, h4, h5, h6⟩ := h
  have hr0 : (0:ℚ) ≤ c.r / 255 := by positivity
  have hg0 : (0:ℚ) ≤ c.g / 255 := by positivity
  have hb0 : (0:ℚ) ≤ c.b / 255 := by positivity
  have hr1 : c.r / 255 ≤ 1 := by rw [div_le_one (by norm_num)]; linarith
  have hg1 : c.g / 255 ≤ 1 := by rw [div_le_one (by norm_num)]; linarith
  have hb1 : c.b / 255 ≤ 1 := by rw [div_le_one (by norm_num)]; linarith
  simp only [rgbToHsl]
  set r := c.r / 255 with hrdef
  set g := c.g / 255 with hgdef
  set b := c.b / 255 with hbdef
  set M := max r (max g b) with hMdef
  set m := min r (min g b) with hmdef
  have hm0 : 0 ≤ m := le_min hr0 (le_min hg0 hb0)
  have hM1 : M ≤ 1 := max_le hr1 (max_le hg1 hb1)
  have hrM : r ≤ M := le_max_left _ _
  have hgM : g ≤ M := le_trans (le_max_left g b) (le_max_right r (max g b))
  have hbM : b ≤ M := le_trans (le_max_right g b) (le_max_right r (max g b))
  have hmr : m ≤ r := min_le_left _ _
  have hmg : m ≤ g := le_trans (min_le_right r (min g b)) (min_le_left g b)
  have hmb : m ≤ b := le_trans (min_le_right r (min g b)) (min_le_right g b)
  have hmM : m ≤ M := le_trans hmr hrM
  have hHexp : 0 ≤ (if M - m = 0 then (0:ℚ)
      else if M = r then ((g - b) / (M - m) + if g < b then 6 else 0) / 6
      else if M = g then ((b - r) / (M - m) + 2) / 6
      else ((r - g) / (M - m) + 4) / 6)
    ∧ (if M - m = 0 then (0:ℚ)
      else if M = r then ((g - b) / (M - m) + if g < b then 6 else 0) / 6
      else if M = g then ((b - r) / (M - m) + 2) / 6
      else ((r - g) / (M - m) + 4) / 6) ≤ 1 := by
    split_ifs with hd hR hgb hG
    · exact ⟨le_refl 0, by norm_num⟩
    · have hdpos : 0 < M - m := (sub_nonneg.mpr hmM).lt_of_ne (Ne.symm hd)
      have hu : (g - b) / (M - m) ≤ 1 := by rw [div_le_one hdpos]; linarith
      have hlo : -1 ≤ (g - b) / (M - m) := by rw [le_div_iff₀ hdpos]; linarith
      have hneg : (g - b) / (M - m) ≤ 0 := by
        rw [div_nonpos_iff]
        right
        exact ⟨by linarith, by linarith⟩
      constructor <;> linarith
    · have hdpos : 0 < M - m := (sub_nonneg.mpr hmM).lt_of_ne (Ne.symm hd)
      have hu : (g - b) / (M - m) ≤ 1 := by rw [div_le_one hdpos]; linarith
      have hpos : 0 ≤ (g - b) / (M - m) := by
        apply div_nonneg (by linarith) (le_of_lt hdpos)
      constructor <;> linarith
    · have hdpos : 0 < M - m := (sub_nonneg.mpr hmM).lt_of_ne (Ne.symm hd)
      have hu : (b - r) / (M - m) ≤ 1 := by rw [div_le_one hdpos]; linarith
      have hlo : -1 ≤ (b - r) / (M - m) := by rw [le_div_iff₀ hdpos]; linarith
      constructor <;> linarith
    · have hdpos : 0 < M - m := (sub_nonneg.mpr hmM).lt_of_ne (Ne.symm hd)
      have hu : (r - g) / (M - m) ≤ 1 := by rw [div_le_one hdpos]; linarith
      have hlo : -1 ≤ (r - g) / (M - m) := by rw [le_div_iff₀ hdpos]; linarith
      constructor <;> linarith
  have hSexp : 0 ≤ (if M - m = 0 then (0:ℚ)
      else if (M + m) / 2 > 1/2 then (M - m) / (2 - M - m) else (M - m) / (M + m))
    ∧ (if M - m = 0 then (0:ℚ)
      else if (M + m) / 2 > 1/2 then (M - m) / (2 - M - m) else (M - m) / (M + m)) ≤ 1 := by
    split_ifs with hd hl
    · exact ⟨le_refl 0, by norm_num⟩
    · have hdpos : 0 < M - m := (sub_nonneg.mpr hmM).lt_of_ne (Ne.symm hd)
      have hden : 0 < 2 - M - m := by nlinarith
      constructor
      · exact div_nonneg (by linarith) (by linarith)
      · rw [div_le_one hden]; linarith
    · have hdpos : 0 < M - m := (sub_nonneg.mpr hmM).lt_of_ne (Ne.symm hd)
      have hden : 0 < M + m := by nlinarith
      constructor
      · exact div_nonneg (by linarith) (by linarith)
      · rw [div_le_one hden]; linarith
  have hLexp : 0 ≤ (M + m) / 2 ∧ (M + m) / 2 ≤ 1 := by
    constructor <;> [positivity; (rw [div_le_one (by norm_num)]; linarith)]
  exact ⟨(jsRound_mem360 _ hHexp.1 hHexp.2).1, (jsRound_mem360 _ hHexp.1 hHexp.2).2,
    (jsRound_mem100 _ hSexp.1 hSexp.2).1, (jsRound_mem100 _ hSexp.1 hSexp.2).2,
    (jsRound_mem100 _ hLexp.1 hLexp.2).1, (jsRound_mem100 _ hLexp.1 hLexp.2).2⟩
/-- Helper: adjustLightness keeps colors in range for any requested
lightness, thanks to the clamp. -/
theorem adjustLightness_valid (c : RGB) (L : ℚ) (h : ValidRGB c) :
    ValidRGB (adjustLightness c L) := by
  obtain ⟨a1, a2, a3, a4, a5, a6⟩ := rgbToHsl_valid c h
  apply hslToRgb_valid
  refine ⟨a1, a2, a3, a4, le_max_left 0 _, ?_⟩
  exact max_le (by norm_num) (le_trans (min_le_left _ _) (by norm_num))

/-- C2: findAccessibleColor returns null exactly when neither post-loop
boundary candidate (the subject re-lightened to minL and to maxL) meets the
target ratio against the fixed color; every non-null result meets the
target; when both candidates meet it, the one whose lightness is
numerically closer to the original lightness is returned (the light one
only when strictly closer, matching the source comparison); and an
impossible target of 22, above the maximum possible ratio 21, yields null
for in-range inputs. -/
theorem findAccessibleColor_boundary_spec (fg bg : RGB) (t : ℝ) (adj : Bool)
    (hf : ValidRGB fg) (hb : ValidRGB bg) :
    (findAccessibleColor fg bg t adj = none ↔
      (ratioAgainstFixed fg bg adj (boundaryLight fg bg t adj) < t
        ∧ ratioAgainstFixed fg bg adj (boundaryDark fg bg t adj) < t))
    ∧ (∀ c, findAccessibleColor fg bg t adj = some c →
        t ≤ ratioAgainstFixed fg bg adj c)
    ∧ (t ≤ ratioAgainstFixed fg bg adj (boundaryLight fg bg t adj) →
       t ≤ ratioAgainstFixed fg bg adj (boundaryDark fg bg t adj) →
       findAccessibleColor fg bg t adj =
         some (if |(searchBounds fg bg t adj).2 - (rgbToHsl (subjectOf fg bg adj)).l|
             < |(searchBounds fg bg t adj).1 - (rgbToHsl (subjectOf fg bg adj)).l|
           then boundaryLight fg bg t adj else boundaryDark fg bg t adj))
    ∧ (t = 22 → findAccessibleColor fg bg t adj = none) := by
  classical
  have hsubj : ValidRGB (subjectOf fg bg adj) := by
    unfold subjectOf
    cases adj
    · simpa using hb
    · simpa using hf
  have hfix : ValidRGB (fixedOf fg bg adj) := by
    unfold fixedOf
    cases adj
    · simpa using hf
    · simpa using hb
  have hL : ValidRGB (boundaryLight fg bg t adj) := by
    unfold boundaryLight
    exact adjustLightness_valid _ _ hsubj
  have hD : ValidRGB (boundaryDark fg bg t adj) := by
    unfold boundaryDark
    exact adjustLightness_valid _ _ hsubj
  have h21L : ratioAgainstFixed fg bg adj (boundaryLight fg bg t adj) ≤ 21 := by
    unfold ratioAgainstFixed
    split_ifs
    · exact (getContrastRatio_mem _ _ hL hfix).2
    · exact (getContrastRatio_mem _ _ hfix hL).2
  have h21D : ratioAgainstFixed fg bg adj (boundaryDark fg bg t adj) ≤ 21 := by
    unfold ratioAgainstFixed
    split_ifs
    · exact (getContrastRatio_mem _ _ hD hfix).2
    · exact (getContrastRatio_mem _ _ hfix hD).2
  have hiff : findAccessibleColor fg bg t adj = none ↔
      (ratioAgainstFixed fg bg adj (boundaryLight fg bg t adj) < t
        ∧ ratioAgainstFixed fg bg adj (boundaryDark fg bg t adj) < t) := by
    unfold findAccessibleColor
    split_ifs with h1 h2 h3 h4
    · exact ⟨fun hc => absurd hc (by simp), fun hc => absurd h1.1 (not_le.mpr hc.1)⟩
    · exact ⟨fun hc => absurd hc (by simp), fun hc => absurd h1.1 (not_le.mpr hc.1)⟩
    · exact ⟨fun hc => absurd hc (by simp), fun hc => absurd h3 (not_le.mpr hc.1)⟩
    · exact ⟨fun hc => absurd hc (by simp), fun hc => absurd h4 (not_le.mpr hc.2)⟩
    · exact ⟨fun _ => ⟨not_le.mp h3, not_le.mp h4⟩, fun _ => rfl⟩
  refine ⟨hiff, ?_, ?_, ?_⟩
  · intro c hc
    unfold findAccessibleColor at hc
    split_ifs at hc with h1 h2 h3 h4
    · injection hc with h'
      subst h'
      exact h1.1
    · injection hc with h'
      subst h'
      exact h1.2
    · injection hc with h'
      subst h'
      exact h3
    · injection hc with h'
      subst h'
      exact h4
  · intro hA hB
    unfold findAccessibleColor
    split_ifs with h1 h2
    · rfl
    · rfl
    all_goals exact absurd ⟨hA, hB⟩ h1
  · intro ht
    subst ht
    exact hiff.mpr ⟨lt_of_le_of_lt h21L (by norm_num), lt_of_le_of_lt h21D (by norm_num)⟩

/-- Witness for C2: the impossible target 22 on black and white. -/
theorem findAccessibleColor_boundary_spec_witness :
    ValidRGB ⟨0, 0, 0⟩ ∧ ValidRGB ⟨255, 255, 255⟩
      ∧ findAccessibleColor ⟨0, 0, 0⟩ ⟨255, 255, 255⟩ 22 true = none :=
  ⟨by decide, by decide,
    (findAccessibleColor_boundary_spec ⟨0, 0, 0⟩ ⟨255, 255, 255⟩ 22 true
      (by decide) (by decide)).2.2.2 rfl⟩
/-- C8: every non-null result of findAccessibleColor is the subject color
rebuilt from its own hue and saturation with only the lightness replaced
(the preservation of hue and saturation holds by construction, through
adjustLightness); in particular every foreground suggestion for the color
7c8aff hex on white at target 4.5 is built from hue 234 and saturation 100,
the HSL coordinates of the original color. -/
theorem findAccessibleColor_preserves_hue_sat (fg bg : RGB) (t : ℝ) (adj : Bool) :
    (∀ c, findAccessibleColor fg bg t adj = some c →
      ∃ L, c = hslToRgb ⟨(rgbToHsl (subjectOf fg bg adj)).h,
        (rgbToHsl (subjectOf fg bg adj)).s, L⟩)
    ∧ rgbToHsl ⟨124, 138, 255⟩ = ⟨234, 100, 74⟩
    ∧ (∀ c, findAccessibleColor ⟨124, 138, 255⟩ ⟨255, 255, 255⟩ (9/2) true = some c →
      ∃ L, c = hslToRgb ⟨234, 100, L⟩) := by
  classical
  have hmain : ∀ (fg bg : RGB) (t : ℝ) (adj : Bool) (c : RGB),
      findAccessibleColor fg bg t adj = some c →
      ∃ L, c = hslToRgb ⟨(rgbToHsl (subjectOf fg bg adj)).h,
        (rgbToHsl (subjectOf fg bg adj)).s, L⟩ := by
    intro fg bg t adj c hc
    unfold findAccessibleColor at hc
    split_ifs at hc with h1 h2 h3 h4
    · injection hc with h'
      exact ⟨max 0 (min 100 (searchBounds fg bg t adj).2), h'.symm⟩
    · injection hc with h'
      exact ⟨max 0 (min 100 (searchBounds fg bg t adj).1), h'.symm⟩
    · injection hc with h'
      exact ⟨max 0 (min 100 (searchBounds fg bg t adj).2), h'.symm⟩
    · injection hc with h'
      exact ⟨max 0 (min 100 (searchBounds fg bg t adj).1), h'.symm⟩
  have hcalc : rgbToHsl ⟨124, 138, 255⟩ = ⟨234, 100, 74⟩ := by
    simp only [rgbToHsl]
    norm_num [max_def, min_def, HSL.mk.injEq]
    refine ⟨?_, ?_, ?_⟩ <;> exact_mod_cast jsRound_eq _ _ (by norm_num) (by norm_num)
  refine ⟨hmain fg bg t adj, hcalc, ?_⟩
  intro c hc
  obtain ⟨L, hL⟩ := hmain ⟨124, 138, 255⟩ ⟨255, 255, 255⟩ (9/2) true c hc
  refine ⟨L, ?_⟩
  rw [hL, show subjectOf ⟨124, 138, 255⟩ ⟨255, 255, 255⟩ true = (⟨124, 138, 255⟩ : RGB)
    from rfl, hcalc]


/-- Helper: inserting a suggestion permutes the extended list. -/
theorem insertSuggestion_perm (t : ℝ) (s : ColorSuggestion) (l : List ColorSuggestion) :
    (insertSuggestion t s l).Perm (s :: l) := by
  induction l with
  | nil => exact List.Perm.refl _
  | cons x rest ih =>
    unfold insertSuggestion
    split_ifs
    · exact (ih.cons x).trans (List.Perm.swap s x rest)
    · exact List.Perm.refl _

/-- Helper: insertion preserves the sort order. -/
theorem insertSuggestion_pairwise (t : ℝ) (s : ColorSuggestion)
    (l : List ColorSuggestion)
    (h : l.Pairwise (fun a b => |a.ratio - t| ≤ |b.ratio - t|)) :
    (insertSuggestion t s l).Pairwise (fun a b => |a.ratio - t| ≤ |b.ratio - t|) := by
  induction l with
  | nil => simp [insertSuggestion]
  | cons x rest ih =>
    rcases List.pairwise_cons.mp h with ⟨hx, hrest⟩
    unfold insertSuggestion
    split_ifs with hc
    · rw [List.pairwise_cons]
      refine ⟨?_, ih hrest⟩
      intro b hb
      rcases List.mem_cons.mp ((insertSuggestion_perm t s rest).mem_iff.mp hb) with hb' | hb'
      · exact hb' ▸ hc
      · exact hx b hb'
    · rw [List.pairwise_cons]
      refine ⟨?_, h⟩
      intro b hb
      rcases List.mem_cons.mp hb with hb' | hb'
      · exact hb' ▸ le_of_lt (not_le.mp hc)
      · exact le_trans (le_of_lt (not_le.mp hc)) (hx b hb')

/-- Helper: the insertion fold permutes its input. -/
theorem sortSuggestions_go_perm (t : ℝ) :
    ∀ (l acc : List ColorSuggestion),
      (l.foldl (fun acc s => insertSuggestion t s acc) acc).Perm (acc ++ l) := by
  intro l
  induction l with
  | nil => intro acc; simp
  | cons x rest ih =>
    intro acc
    have h1 := ih (insertSuggestion t x acc)
    have h2 : (insertSuggestion t x acc ++ rest).Perm (acc ++ x :: rest) := by
      refine ((insertSuggestion_perm t x acc).append_right rest).trans ?_
      exact List.perm_middle.symm
    simpa using h1.trans h2

/-- Helper: the insertion fold sorts its input. -/
theorem sortSuggestions_pairwise_aux (t : ℝ) :
    ∀ (l acc : List ColorSuggestion),
      acc.Pairwise (fun a b => |a.ratio - t| ≤ |b.ratio - t|) →
      (l.foldl (fun acc s => insertSuggestion t s acc) acc).Pairwise
        (fun a b => |a.ratio - t| ≤ |b.ratio - t|) := by
  intro l
  induction l with
  | nil => intro acc h; simpa using h
  | cons x rest ih =>
    intro acc h
    exact ih _ (insertSuggestion_pairwise t x acc h)

/-- C9: suggestAccessibleColors returns exactly the suggestions arising
from the non-null searches selected by the preserve option (foreground
adjusted for background or both, background adjusted for foreground or
both), with null searches omitted rather than raised, at most two
suggestions, sorted ascending by the distance of the suggestion ratio from
the target ratio. -/
theorem suggestAccessibleColors_spec (F B : RGB) (t : ℝ) (p : Preserve) :
    (suggestAccessibleColors F B t p).Pairwise
        (fun a b => |a.ratio - t| ≤ |b.ratio - t|)
    ∧ (∀ s, s ∈ suggestAccessibleColors F B t p ↔
        (((p = .background ∨ p = .both)
            ∧ ∃ c, findAccessibleColor F B t true = some c
              ∧ s = ⟨rgbToHex c,
                  (jsRoundR (getContrastRatio c B * 100) : ℝ) / 100, .foreground⟩)
          ∨ ((p = .foreground ∨ p = .both)
            ∧ ∃ c, findAccessibleColor F B t false = some c
              ∧ s = ⟨rgbToHex c,
                  (jsRoundR (getContrastRatio F c * 100) : ℝ) / 100, .background⟩)))
    ∧ (suggestAccessibleColors F B t p).length ≤ 2 := by
  classical
  have hperm := sortSuggestions_go_perm t
    (fgSuggestionList F B t p ++ bgSuggestionList F B t p) []
  have hperm' : (suggestAccessibleColors F B t p).Perm
      (fgSuggestionList F B t p ++ bgSuggestionList F B t p) := by
    simpa [suggestAccessibleColors, sortSuggestions] using hperm
  have hfg : ∀ s, s ∈ fgSuggestionList F B t p ↔
      ((p = .background ∨ p = .both)
        ∧ ∃ c, findAccessibleColor F B t true = some c
          ∧ s = ⟨rgbToHex c,
              (jsRoundR (getContrastRatio c B * 100) : ℝ) / 100, .foreground⟩) := by
    intro s
    unfold fgSuggestionList
    split_ifs with hp
    · rcases hfind : findAccessibleColor F B t true with _ | c <;> simp [hfind, hp]
    · simp [hp]
  have hbg : ∀ s, s ∈ bgSuggestionList F B t p ↔
      ((p = .foreground ∨ p = .both)
        ∧ ∃ c, findAccessibleColor F B t false = some c
          ∧ s = ⟨rgbToHex c,
              (jsRoundR (getContrastRatio F c * 100) : ℝ) / 100, .background⟩) := by
    intro s
    unfold bgSuggestionList
    split_ifs with hp
    · rcases hfind : findAccessibleColor F B t false with _ | c <;> simp [hfind, hp]
    · simp [hp]
  have hlfg : (fgSuggestionList F B t p).length ≤ 1 := by
    unfold fgSuggestionList
    split_ifs
    · rcases findAccessibleColor F B t true with _ | c <;> simp
    · simp
  have hlbg : (bgSuggestionList F B t p).length ≤ 1 := by
    unfold bgSuggestionList
    split_ifs
    · rcases findAccessibleColor F B t false with _ | c <;> simp
    · simp
  refine ⟨?_, ?_, ?_⟩
  · exact sortSuggestions_pairwise_aux t _ [] List.Pairwise.nil
  · intro s
    rw [hperm'.mem_iff, List.mem_append, hfg, hbg]
  · rw [hperm'.length_eq, List.length_append]
    omega
